import Mathlib

/-!
Verification development for the NachOS MP4 file-system storage layer
(`code/filesys/filehdr.{h,cc}`, `code/filesys/filesys.cc`,
`code/userprog/ksyscall.h`).

The C++ sources are shallowly embedded: machine `int`s become `Int`
(sector ids, with `-1` as the sentinel) or `Nat` (sizes, offsets);
the mutable free-sector bitmap becomes an explicit `List Bool` threaded
through each operation; a fatal `ASSERT` or a null-pointer dereference
becomes an `Option`-failure (`none`).  Every definition is translated
from the source file named in its doc comment, except the ones whose
doc comment starts with `Modelled from the spec:`, which stand for
repository code that is not under `src/` (the directory table, the raw
disk, the open-file collaborator) and follow the spec text instead.
-/

namespace NachOS

/-- Disk geometry constant `SectorSize` (disk.h): bytes per sector. -/
def SectorSize : Nat := 128

/-- `LinkedDirect = (SectorSize - sizeof(int)) / sizeof(int)` (filehdr.h:22):
number of data-sector slots in one `LinkedDataSector` node. -/
def LinkedDirect : Nat := (SectorSize - 4) / 4

/-- `divRoundUp(a, b) = (a + b - 1) / b`, the ceiling division used by
`SeqDataSectors::Allocate` (filehdr.cc:61). -/
def divRoundUp (a b : Nat) : Nat := (a + b - 1) / b

/-- Well-known sector of the root directory file header (filesys.cc:59). -/
def DirectorySector : Int := 1

/-- Modelled from the spec: the number of sectors of the backing device
(disk.h is not under src/); only its role as an upper bound on valid
sector addresses matters here. -/
def NumDiskSectors : Int := 1024

/-! ## Free-sector bitmap

Modelled from the spec: the bitmap's low-level code (`pbitmap`/`bitmap`)
is an external collaborator exposed through `Mark`, `Clear`,
`FindAndSet`, `NumClear` (spec section 2 item 1 and section 6).  A bitmap is one
`Bool` per sector, `true` = used. -/

/-- One `Bool` per sector; `true` means the sector is in use. -/
abbrev Bitmap := List Bool

/-- Modelled from the spec: `NumClear` / `FreeCount` counts free sectors. -/
def Bitmap.numClear (bm : Bitmap) : Nat := bm.count false

/-- Modelled from the spec: `FindAndSet` finds the first clear bit, sets
it, and returns its index; `none` models the C return value `-1`. -/
def Bitmap.findAndSetAux : List Bool → Option (Nat × List Bool)
  | [] => none
  | b :: bs =>
    if b = false then some (0, true :: bs)
    else (Bitmap.findAndSetAux bs).map (fun p => (p.1 + 1, b :: p.2))

/-- `FindAndSet` with the found index returned as a sector id (`Int ≥ 0`). -/
def Bitmap.findAndSet (bm : Bitmap) : Option (Int × Bitmap) :=
  (Bitmap.findAndSetAux bm).map (fun p => ((p.1 : Int), p.2))

/-- Modelled from the spec: `Mark` sets the bit of a (non-negative)
sector.  A negative argument would fail the bitmap's own bounds
assertion; no caller modelled here passes one. -/
def Bitmap.mark (bm : Bitmap) (s : Int) : Bitmap :=
  if 0 ≤ s then bm.set s.toNat true else bm

/-- Modelled from the spec: `Clear` clears the bit of a (non-negative)
sector. -/
def Bitmap.clear (bm : Bitmap) (s : Int) : Bitmap :=
  if 0 ≤ s then bm.set s.toNat false else bm

/-! ## Sector chain (`LinkedDataSector` / `SeqDataSectors`, filehdr.h/cc) -/

/-- On-disk node of the sector chain (filehdr.h:24-52): a link field
(next node's sector, `-1` = end) plus `LinkedDirect` data-sector slots
(`-1` = empty).  The in-core `next` pointer is represented by the
position of the node in the chain's node list. -/
structure LinkedDataSector where
  linkSector : Int
  dataSectors : List Int
deriving DecidableEq, Repr

/-- The sector chain (filehdr.h:54-68): head sector (`-1` = empty chain)
plus the in-core list of nodes reachable through `next`. -/
structure SeqDataSectors where
  front : Int
  list : List LinkedDataSector
deriving DecidableEq, Repr

/-- Builds a node as `SeqDataSectors::Allocate` leaves it: the assigned
slots first, the remaining slots still `-1` from the constructor
(filehdr.h:26-31), and the given link. -/
def mkNode (link : Int) (slots : List Int) : LinkedDataSector :=
  ⟨link, slots ++ List.replicate (LinkedDirect - slots.length) (-1)⟩

/-- Takes `n` sectors from the bitmap by successive `FindAndSet` calls,
as the slot-filling loop of `SeqDataSectors::Allocate` does
(filehdr.cc:81-86); `none` models `FindAndSet` returning `-1`, on which
the loop's `ASSERT(sector >= 0)` aborts. -/
def takeFree (bm : Bitmap) : Nat → Option (List Int × Bitmap)
  | 0 => some ([], bm)
  | n + 1 =>
    match bm.findAndSet with
    | none => none
    | some (s, bm1) => (takeFree bm1 n).map (fun p => (s :: p.1, p.2))

/-- The node-building loop of `SeqDataSectors::Allocate`
(filehdr.cc:69-87), entered with the current node's storage sector
already drawn: fill `min LinkedDirect rem` slots by `FindAndSet`; if
sectors remain, draw one more sector for the next node's storage, set
the current node's link to it, and continue.  `none` models the
`ASSERT(sector >= 0)` abort when `FindAndSet` fails.  The fuel argument
bounds the loop, one unit per chain node; since every node consumes at
least one remaining sector, fuel `rem` (as supplied by `buildNodes`)
never runs out for `rem ≥ 1`. -/
def buildNodesF (bm : Bitmap) (rem : Nat) : Nat → Option (List LinkedDataSector × Bitmap)
  | 0 => none
  | fuel + 1 =>
    match takeFree bm (min LinkedDirect rem) with
    | none => none
    | some (slots, bm1) =>
      if rem ≤ LinkedDirect then some ([mkNode (-1) slots], bm1)
      else
        match bm1.findAndSet with
        | none => none
        | some (s, bm2) =>
          match buildNodesF bm2 (rem - LinkedDirect) fuel with
          | none => none
          | some (rest, bm3) => some (mkNode s slots :: rest, bm3)

/-- The node-building loop with sufficient fuel (`buildNodes` is only
reached from `SeqDataSectors.Allocate` with `rem ≥ 1`). -/
def buildNodes (bm : Bitmap) (rem : Nat) : Option (List LinkedDataSector × Bitmap) :=
  buildNodesF bm rem rem

/-- Result of `SeqDataSectors::Allocate` (filehdr.cc:60-90):
`notEnough` is the early `return FALSE` (bitmap untouched),
`assertFail` is an `ASSERT(... >= 0)` abort inside the loop,
`ok` carries the built chain and the updated bitmap (return `TRUE`). -/
inductive AllocResult where
  | notEnough (bm : Bitmap)
  | assertFail
  | ok (c : SeqDataSectors) (bm : Bitmap)
deriving DecidableEq, Repr

/-- `SeqDataSectors::Allocate(freeMap, fileSize)` (filehdr.cc:60-90) on a
freshly constructed chain (`front = -1`, as at every call site):
fails early if `NumClear() < divRoundUp(fileSize, SectorSize)`;
otherwise draws the front node's storage sector and runs the
node-building loop. -/
def SeqDataSectors.Allocate (bm : Bitmap) (fileSize : Nat) : AllocResult :=
  let numSectors := divRoundUp fileSize SectorSize
  if bm.numClear < numSectors then .notEnough bm
  else if numSectors = 0 then .ok ⟨-1, []⟩ bm
  else
    match bm.findAndSet with
    | none => .assertFail
    | some (front, bm1) =>
      match buildNodes bm1 numSectors with
      | none => .assertFail
      | some (nodes, bm2) => .ok ⟨front, nodes⟩ bm2

/-- The slot-clearing loop of `SeqDataSectors::Deallocate`
(filehdr.cc:98-99): clears slots left to right, stopping at the first
`-1`. -/
def clearSlotsScan (bm : Bitmap) : List Int → Bitmap
  | [] => bm
  | s :: rest => if s = -1 then bm else clearSlotsScan (bm.clear s) rest

/-- The node-walking do-while loop of `SeqDataSectors::Deallocate`
(filehdr.cc:95-104): clear the node's non-empty slots, clear the node's
own storage sector (`target`), follow the link while it is not `-1`.
The `[]` case stands for a null `next` with a live link, which chains
built by `Allocate` never produce. -/
def deallocLoop (bm : Bitmap) (target : Int) : List LinkedDataSector → Bitmap
  | [] => bm
  | n :: rest =>
    let bm1 := (clearSlotsScan bm n.dataSectors).clear target
    if n.linkSector = -1 then bm1 else deallocLoop bm1 n.linkSector rest

/-- `SeqDataSectors::Deallocate(freeMap)` (filehdr.cc:92-105): no-op when
`front = -1`, otherwise runs the node walk starting at `front`. -/
def SeqDataSectors.Deallocate (c : SeqDataSectors) (bm : Bitmap) : Bitmap :=
  if c.front = -1 then bm else deallocLoop bm c.front c.list

/-- `SeqDataSectors::GetSector(offset)` (filehdr.cc:243-251): walk
`(offset / SectorSize) / LinkedDirect` nodes from the head and read slot
`(offset / SectorSize) % LinkedDirect`.  `none` models the
`ASSERT(target != NULL)` abort (or the dereference of an absent head)
when the walk runs past the last node. -/
def SeqDataSectors.GetSector (c : SeqDataSectors) (offset : Nat) : Option Int :=
  let ns := offset / SectorSize
  match c.list.drop (ns / LinkedDirect) with
  | [] => none
  | n :: _ => n.dataSectors.get? (ns % LinkedDirect)

/-- The chain's flattened data-sector sequence: for each node in order,
its slots up to the first `-1` (the assigned ones). -/
def usedSlots (n : LinkedDataSector) : List Int :=
  n.dataSectors.takeWhile (fun s => s ≠ -1)

/-- Flattened data-sector sequence of a chain. -/
def chainData (c : SeqDataSectors) : List Int :=
  c.list.flatMap usedSlots

/-! ## File header (`FileHeader`, filehdr.h:85-130, filehdr.cc) -/

/-- The file header (filehdr.h:127-129): `numBytes`, `numSectors`, and
the sector chain.  The constructor (filehdr.cc:143-147) sets both
counters to `-1`. -/
structure FileHeader where
  numBytes : Int
  numSectors : Int
  dataSectorList : SeqDataSectors
deriving DecidableEq, Repr

/-- Result of `FileHeader::Allocate` (filehdr.cc:171-176): `crash` when
the chain allocation aborts on its internal assertion; otherwise `done`
with the header as left in memory, the bitmap, and the returned `bool`. -/
inductive FHAllocResult where
  | crash
  | done (h : FileHeader) (bm : Bitmap) (ret : Bool)
deriving DecidableEq, Repr

/-- `FileHeader::Allocate(freeMap, fileSize)` (filehdr.cc:171-176) on a
freshly constructed header: sets `numBytes = fileSize`, calls
`dataSectorList.Allocate(freeMap, fileSize)` discarding its result, and
returns `TRUE`.  `numSectors` keeps the constructor's `-1`. -/
def FileHeader.Allocate (bm : Bitmap) (fileSize : Nat) : FHAllocResult :=
  match SeqDataSectors.Allocate bm fileSize with
  | .assertFail => .crash
  | .notEnough bm1 => .done ⟨(fileSize : Int), -1, ⟨-1, []⟩⟩ bm1 true
  | .ok c bm1 => .done ⟨(fileSize : Int), -1, c⟩ bm1 true

/-- `FileHeader::Deallocate(freeMap)` (filehdr.cc:185-188): delegates to
the chain. -/
def FileHeader.Deallocate (h : FileHeader) (bm : Bitmap) : Bitmap :=
  h.dataSectorList.Deallocate bm

/-- `FileHeader::ByteToSector(offset)` (filehdr.cc:253-256): delegates to
`SeqDataSectors::GetSector`. -/
def FileHeader.ByteToSector (h : FileHeader) (offset : Nat) : Option Int :=
  h.dataSectorList.GetSector offset

/-- `FileHeader::FileLength()` (filehdr.cc:263-266). -/
def FileHeader.FileLength (h : FileHeader) : Int := h.numBytes

/-! ## Disk and header serialization (filehdr.cc:32-48, 107-134, 197-231)

Modelled from the spec: the block device (`synchdisk`/`disk`, not under
src/) exposes sector-atomic `ReadSector` / `WriteSector` addressed by a
non-negative sector index; an out-of-range access is an internal
invariant violation (spec sections 3, 6, 7), modelled as `none`.  A sector's
content is kept as the list of machine words the embedded code actually
(de)serializes (the unused tail of the 128-byte buffer carries no
information). -/

/-- Disk contents: each sector id maps to the words stored there. -/
def Disk := Int → List Int

/-- Modelled from the spec: `ReadSector` on a valid sector id. -/
def ReadSector (d : Disk) (s : Int) : Option (List Int) :=
  if 0 ≤ s ∧ s < NumDiskSectors then some (d s) else none

/-- Modelled from the spec: `WriteSector` on a valid sector id. -/
def WriteSector (d : Disk) (s : Int) (v : List Int) : Option Disk :=
  if 0 ≤ s ∧ s < NumDiskSectors then
    some (fun t => if t = s then v else d t)
  else none

/-- On-disk image of a chain node, as `LinkedDataSector::WriteBackSector`
lays it out (filehdr.cc:41-48): the link word followed by the slots. -/
def nodeImage (n : LinkedDataSector) : List Int :=
  n.linkSector :: n.dataSectors

/-- Decoding of a node sector, as `LinkedDataSector::FetchFromSector`
reads it (filehdr.cc:32-39). -/
def decodeNode (img : List Int) : LinkedDataSector :=
  ⟨img.getD 0 0, img.drop 1⟩

/-- The node-writing loop of `SeqDataSectors::WriteBack`
(filehdr.cc:126-133): write the current node at `sector`, then while its
link is not `-1` write the next node at the link.  The `[]` case stands
for a null `next` with a live link (never produced by `Allocate`). -/
def writeNodes (d : Disk) (sector : Int) : List LinkedDataSector → Option Disk
  | [] => none
  | n :: rest =>
    match WriteSector d sector (nodeImage n) with
    | none => none
    | some d1 => if n.linkSector = -1 then some d1 else writeNodes d1 n.linkSector rest

/-- The node-reading loop of `SeqDataSectors::FetchFrom`
(filehdr.cc:109-118): read the node stored at `sector`, then follow its
link while not `-1`.  The fuel bounds the on-disk link walk (the C loop
simply runs as long as links continue; any walk of more than
`NumDiskSectors` nodes revisits a sector). -/
def fetchNodes (d : Disk) (sector : Int) : Nat → Option (List LinkedDataSector)
  | 0 => none
  | fuel + 1 =>
    match ReadSector d sector with
    | none => none
    | some img =>
      let n := decodeNode img
      if n.linkSector = -1 then some [n]
      else
        match fetchNodes d n.linkSector fuel with
        | none => none
        | some rest => some (n :: rest)

/-- `FileHeader::WriteBack(sector)` (filehdr.cc:218-231): the chain's
`WriteBack` first stores every node at its own sector (filehdr.cc:121-134,
a no-op when `front = -1`), then the header sector is written with
`numBytes`, `numSectors`, and the chain head. -/
def FileHeader.WriteBack (h : FileHeader) (sector : Int) (d : Disk) : Option Disk :=
  match
    (if h.dataSectorList.front = -1 then some d
     else writeNodes d h.dataSectorList.front h.dataSectorList.list) with
  | none => none
  | some d1 => WriteSector d1 sector [h.numBytes, h.numSectors, h.dataSectorList.front]

/-- `FileHeader::FetchFrom(sector)` (filehdr.cc:197-209): read the header
sector, then `SeqDataSectors::FetchFrom` (filehdr.cc:107-119), which
reads the node at `front` BEFORE its `front == -1` check — so a sentinel
head reaches `ReadSector(-1)`, an out-of-range disk access (`none`). -/
def FileHeader.FetchFrom (d : Disk) (sector : Int) : Option FileHeader :=
  match ReadSector d sector with
  | none => none
  | some img =>
    let front := img.getD 2 0
    match fetchNodes d front NumDiskSectors.toNat with
    | none => none
    | some nodes => some ⟨img.getD 0 0, img.getD 1 0, ⟨front, nodes⟩⟩

/-! ## Directory table

Modelled from the spec: `directory.{h,cc}` is not under src/.  Spec
section 4.3: a fixed-capacity table of `(name, sector, isDirectory)` entries;
`Find` returns the sector or `-1`; `Add` fails if the name is present or
no slot remains; `Remove` marks the slot empty. -/

/-- Modelled from the spec: one directory entry. -/
structure DirEntry where
  name : String
  sector : Int
  isDirectory : Bool
deriving DecidableEq, Repr

/-- Modelled from the spec: fixed maximum entry count of a directory
table (`NumDirEntries`, filesys.h not under src/; the exact value is
immaterial, any bound at least the number of entries used below works). -/
def NumDirEntries : Nat := 8

/-- Modelled from the spec: byte size of one on-disk directory entry
(`sizeof(DirectoryEntry)`, directory.h not under src/). -/
def DirEntryBytes : Nat := 16

/-- `DirectoryFileSize = sizeof(DirectoryEntry) * NumDirEntries`
(filesys.cc:65), the byte size of one full directory image. -/
def DirectoryFileSize : Nat := DirEntryBytes * NumDirEntries

/-- Modelled from the spec: a directory table's live entries. -/
structure Directory where
  entries : List DirEntry
deriving DecidableEq, Repr

/-- Modelled from the spec: `Find(name)` returns the entry's sector or `-1`. -/
def Directory.find (dir : Directory) (name : String) : Int :=
  match dir.entries.find? (fun e => e.name = name) with
  | none => -1
  | some e => e.sector

/-- Modelled from the spec: `Add(name, sector, isDirectory)` fails
(table unchanged, returns false) if the name is already present or the
fixed capacity is reached. -/
def Directory.add (dir : Directory) (name : String) (sector : Int) (isDir : Bool) :
    Option Directory :=
  if dir.find name ≠ -1 ∨ NumDirEntries ≤ dir.entries.length then none
  else some ⟨dir.entries ++ [⟨name, sector, isDir⟩]⟩

/-- Modelled from the spec: `Remove(name)` marks the entry's slot empty. -/
def Directory.remove (dir : Directory) (name : String) : Directory :=
  ⟨dir.entries.filter (fun e => e.name ≠ name)⟩

/-- The empty directory table. -/
def emptyDir : Directory := ⟨[]⟩

/-! ## File-system state and path resolution (filesys.cc)

The persistent state visible to `FileSystem` operations: the bitmap file
contents, the directory-table contents of each directory file (keyed by
the sector of its `FileHeader` — reading or writing a directory through
its `OpenFile` is modelled as direct access to its table, whose
byte-level round trip is the collaborator's contract), and the file
headers stored on disk (keyed by their sector, abstracting the
serialized form whose round trip `FileHeader.WriteBack`/`FetchFrom`
models above). -/

/-- Association-list update (insert or overwrite). -/
def aset {α : Type} (l : List (Int × α)) (k : Int) (v : α) : List (Int × α) :=
  match l with
  | [] => [(k, v)]
  | (k0, v0) :: rest => if k0 = k then (k, v) :: rest else (k0, v0) :: aset rest k v

/-- Association-list lookup. -/
def aget {α : Type} (l : List (Int × α)) (k : Int) : Option α :=
  match l with
  | [] => none
  | (k0, v0) :: rest => if k0 = k then some v0 else aget rest k

/-- Persistent file-system state threaded through the operations. -/
structure FSState where
  freeMapDisk : Bitmap
  dirs : List (Int × Directory)
  headers : List (Int × FileHeader)
deriving DecidableEq, Repr

/-- The backward scan of `FileSystem::DescribePath` (filesys.cc:169-174)
locating the last `/` of the path; `none` is the `ASSERT(dirEnd >= 0)`
abort. -/
def findLastSlash : List Char → Option Nat
  | [] => none
  | c :: cs =>
    match findLastSlash cs with
    | some i => some (i + 1)
    | none => if c = '/' then some 0 else none

/-- The string-splitting part of `FileSystem::DescribePath`
(filesys.cc:159-193): the characters before the last `/` become the
directory portion (a bare leading `/` becomes `"/"`); the leaf name is a
`/` followed by the characters after the last `/`. -/
def describePathChars (p : List Char) : Option (List Char × List Char) :=
  match findLastSlash p with
  | none => none
  | some dirEnd =>
    some (if dirEnd = 0 then ['/'] else p.take dirEnd, '/' :: p.drop (dirEnd + 1))

/-- String wrapper around `describePathChars`. -/
def describePath (p : String) : Option (String × String) :=
  (describePathChars p.data).map (fun q => (String.mk q.1, String.mk q.2))

/-- One component step of `FileSystem::TraverseDirectory`
(filesys.cc:300-343): fetch the current directory's table; if the
component is absent, draw a sector for the new directory's header
(`ASSERT(subdirSector >= 0)` → `none`), allocate a header sized for one
full directory image from the same live bitmap (its `ASSERT` can only
fire on a chain-allocation abort, since `FileHeader::Allocate` returns
`TRUE` even when the chain fails), mark the header sector, add the
component with `isDirectory = TRUE` (the result is ignored, as in the
source), write back the new header, the current table and the bitmap,
and initialize the new sector with an empty directory image; if present,
descend. -/
def stepComp (st : FSState) (curr : Int) (c : String) : Option (Int × FSState) :=
  match aget st.dirs curr with
  | none => none
  | some dir =>
    let s := dir.find c
    if s = -1 then
      match st.freeMapDisk.findAndSet with
      | none => none
      | some (sub, bm1) =>
        match FileHeader.Allocate bm1 DirectoryFileSize with
        | .crash => none
        | .done hdr bm2 _ =>
          let bm3 := bm2.mark sub
          let dir1 := (dir.add c sub true).getD dir
          let st1 : FSState :=
            { freeMapDisk := bm3,
              dirs := aset (aset st.dirs curr dir1) sub emptyDir,
              headers := aset st.headers sub hdr }
          some (sub, st1)
    else some (s, st)

/-- The component loop of `FileSystem::TraverseDirectory`
(filesys.cc:300-349): a boundary (`/` or terminator) with an empty
accumulated name at the terminator is the root case, returning
`DirectorySector`; every other boundary resolves or creates the
component and descends. -/
def traverseComps (st : FSState) (curr : Int) : List String → Option (Int × FSState)
  | [] => none
  | [c] =>
    if c = "" then some (DirectorySector, st)
    else stepComp st curr c
  | c :: c2 :: rest =>
    match stepComp st curr c with
    | none => none
    | some (s, st1) => traverseComps st1 s (c2 :: rest)

/-- Splits a character list at every `/`: the component list the
character loop of `FileSystem::TraverseDirectory` accumulates between
boundaries (a `/` or the terminator). -/
def splitSlashes : List Char → List (List Char)
  | [] => [[]]
  | c :: rest =>
    match splitSlashes rest with
    | [] => [[]]
    | g :: gs => if c = '/' then [] :: g :: gs else (c :: g) :: gs

/-- `FileSystem::TraverseDirectory(path)` (filesys.cc:284-355): asserts
the path starts with `/` (→ `none`), then walks the `/`-separated
components, starting at the root directory file. -/
def TraverseDirectory (st : FSState) (path : String) : Option (Int × FSState) :=
  match path.data with
  | [] => none
  | c :: rest =>
    if c = '/' then traverseComps st DirectorySector ((splitSlashes rest).map String.mk)
    else none

/-- `FileSystem::Create(name, initialSize)` (filesys.cc:229-281):
split the path (lazily creating missing directories), fail on a name
conflict, draw a sector for the file header, add the leaf to the parent
table, allocate the header (whose return value — `TRUE` even when the
chain allocation found too little space — decides `success`), and on
success write back the header, the parent table, and the bitmap. -/
def FSCreate (st : FSState) (path : String) (initialSize : Nat) :
    Option (Bool × FSState) :=
  match describePath path with
  | none => none
  | some (dirStr, leaf) =>
    match TraverseDirectory st dirStr with
    | none => none
    | some (dirSector, st1) =>
      if dirSector < 0 then none
      else
        match aget st1.dirs dirSector with
        | none => none
        | some dir =>
          if dir.find leaf ≠ -1 then some (false, st1)
          else
            match st1.freeMapDisk.findAndSet with
            | none => some (false, st1)
            | some (sector, bm1) =>
              match dir.add leaf sector false with
              | none => some (false, st1)
              | some dir1 =>
                match FileHeader.Allocate bm1 initialSize with
                | .crash => none
                | .done hdr bm2 ret =>
                  if ret then
                    some (true,
                      { freeMapDisk := bm2,
                        dirs := aset st1.dirs dirSector dir1,
                        headers := aset st1.headers sector hdr })
                  else some (false, st1)

/-- `FileSystem::Open(name)` (filesys.cc:367-388): split the path
(lazily creating missing directories), look the leaf up in the parent
table; `some (none, _)` is the `NULL` return for an absent leaf,
`some (some s, _)` a handle bound to header sector `s`. -/
def FSOpen (st : FSState) (path : String) : Option (Option Int × FSState) :=
  match describePath path with
  | none => none
  | some (dirStr, leaf) =>
    match TraverseDirectory st dirStr with
    | none => none
    | some (dirSector, st1) =>
      if dirSector < 0 then none
      else
        match aget st1.dirs dirSector with
        | none => none
        | some dir =>
          let s := dir.find leaf
          if s = -1 then some (none, st1) else some (some s, st1)

/-- `FileSystem::Remove(name)` (filesys.cc:427-457): look the raw name
up in the ROOT directory table only; absent → `FALSE`, nothing written;
present → fetch the file's header (`FileHeader::FetchFrom` reads the
chain node at `front` before the sentinel check, so a header whose chain
is empty crashes on `ReadSector(-1)` → `none`), deallocate its chain
against a fresh bitmap snapshot, clear the header's own sector, remove
the entry, write back the bitmap and then the directory. -/
def FSRemove (st : FSState) (name : String) : Option (Bool × FSState) :=
  match aget st.dirs DirectorySector with
  | none => none
  | some dir =>
    let s := dir.find name
    if s = -1 then some (false, st)
    else
      match aget st.headers s with
      | none => none
      | some hdr =>
        if hdr.dataSectorList.front = -1 then none
        else
          let bm1 := hdr.Deallocate st.freeMapDisk
          let bm2 := bm1.clear s
          some (true,
            { freeMapDisk := bm2,
              dirs := aset st.dirs DirectorySector (dir.remove name),
              headers := st.headers })

/-! ## Single-handle open-file service (filesys.cc:390-409, ksyscall.h:42-56) -/

/-- Service state: the file system plus the single stored handle
`openedFile` (filesys.h member used in filesys.cc:390-409). -/
structure ServiceState where
  fs : FSState
  openedFile : Option Int
deriving DecidableEq, Repr

/-- `FileSystem::OpenAndStore(name)` (filesys.cc:390-396), reached from
`SysOpen` (ksyscall.h:42-44): stores the `Open` result (also when it is
`NULL`) and returns `1` on success, `0` on failure. -/
def OpenAndStore (ss : ServiceState) (path : String) : Option (Int × ServiceState) :=
  match FSOpen ss.fs path with
  | none => none
  | some (h, fs1) =>
    some (if h.isNone then 0 else 1, ⟨fs1, h⟩)

/-- `FileSystem::Read(buf, size, id)` (filesys.cc:398-400), reached from
`SysRead` (ksyscall.h:46-48): ignores `id` and calls `Read` on the
stored handle; with no stored handle this dereferences a null pointer
(`none`).  The collaborator's byte-level `OpenFile::Read` (openfile.cc
not under src/) is the parameter `rd`, applied to the handle's sector
and the size. -/
def svcRead (rd : Int → Int → Int) (ss : ServiceState) (size : Int) (id : Int) :
    Option Int :=
  match ss.openedFile with
  | none => none
  | some h => some (rd h size)

/-- `FileSystem::Write(buf, size, id)` (filesys.cc:402-404), reached from
`SysWrite` (ksyscall.h:50-52): same shape as `svcRead`. -/
def svcWrite (wr : Int → Int → Int) (ss : ServiceState) (size : Int) (id : Int) :
    Option Int :=
  match ss.openedFile with
  | none => none
  | some h => some (wr h size)

/-- `FileSystem::Close(id)` (filesys.cc:406-409), reached from `SysClose`
(ksyscall.h:54-56): ignores `id`, nulls the stored handle, returns `1`. -/
def svcClose (ss : ServiceState) (id : Int) : Int × ServiceState :=
  (1, ⟨ss.fs, none⟩)

/-! ## Specification-side helpers for the theorems -/

/-- Clears a list of sectors in order (no sentinel stop); used to relate
allocation and deallocation. -/
def clearList (bm : Bitmap) : List Int → Bitmap
  | [] => bm
  | s :: rest => clearList (bm.clear s) rest

/-- The node walk of `GetSector` expressed on a node list and a sector
index: drop `idx / LinkedDirect` nodes, then read slot
`idx % LinkedDirect`.  `SeqDataSectors.GetSector c off` equals
`walkGet c.list (off / SectorSize)` by definition. -/
def walkGet (nodes : List LinkedDataSector) (idx : Nat) : Option Int :=
  match nodes.drop (idx / LinkedDirect) with
  | [] => none
  | n :: _ => n.dataSectors.get? (idx % LinkedDirect)

/-! ## Concrete instances used by the claim theorems -/

/-- A bitmap whose sectors are all used except sector 7; root directory
empty.  Its free space is one sector = 128 bytes. -/
def stC1 : FSState :=
  ⟨[true, true, true, true, true, true, true, false], [(DirectorySector, emptyDir)], []⟩

/-- The state `FSCreate stC1 "/f" 256` actually produces: the header
sector 7 consumed and written back, the directory entry added — although
the request exceeded the free space. -/
def stC1f : FSState :=
  ⟨[true, true, true, true, true, true, true, true],
   [(DirectorySector, ⟨[⟨"/f", 7, false⟩]⟩)],
   [(7, ⟨256, -1, ⟨-1, []⟩⟩)]⟩

/-- Eight free sectors. -/
def bmC5 : Bitmap := List.replicate 8 false

/-- The header `FileHeader.Allocate bmC5 100` produces: front node at
sector 0, single data sector 1, `numBytes = 100`. -/
def hdrC5 : FileHeader :=
  ⟨100, -1, ⟨0, [⟨-1, 1 :: List.replicate 30 (-1)⟩]⟩⟩

/-- The bitmap after `FileHeader.Allocate bmC5 100`. -/
def bmC5f : Bitmap := [true, true, false, false, false, false, false, false]

/-- An empty disk. -/
def dC4 : Disk := fun _ => []

/-- A header as `FileHeader::Allocate` leaves it for `fileSize = 0`:
`numBytes = 0`, `numSectors = -1`, empty chain. -/
def hdrC4 : FileHeader := ⟨0, -1, ⟨-1, []⟩⟩

/-- Sixteen-sector bitmap with only the two well-known sectors used, and
an empty root directory: an empty, freshly formatted filesystem. -/
def stC7 : FSState :=
  ⟨true :: true :: List.replicate 14 false, [(DirectorySector, emptyDir)], []⟩

/-- The state `FSCreate stC7 "/a/b/c.txt" 100` produces: directory `a`
(header 2, node 3, data 4), directory `b` inside `a` (header 5, node 6,
data 7), leaf `/c.txt` inside `b` (header 8, node 9, data 10). -/
def stC7f : FSState :=
  ⟨[true, true, true, true, true, true, true, true, true, true, true,
    false, false, false, false, false],
   [(DirectorySector, ⟨[⟨"a", 2, true⟩]⟩),
    (2, ⟨[⟨"b", 5, true⟩]⟩),
    (5, ⟨[⟨"/c.txt", 8, false⟩]⟩)],
   [(2, ⟨128, -1, ⟨3, [⟨-1, 4 :: List.replicate 30 (-1)⟩]⟩⟩),
    (5, ⟨128, -1, ⟨6, [⟨-1, 7 :: List.replicate 30 (-1)⟩]⟩⟩),
    (8, ⟨100, -1, ⟨9, [⟨-1, 10 :: List.replicate 30 (-1)⟩]⟩⟩)]⟩

/-- Root directory holding a zero-length file `/e` (header at sector 3,
empty chain) and a 200-byte file `/f` (header at 4, chain node 5, data
sector 6). -/
def stC9 : FSState :=
  ⟨[true, true, true, true, true, true, true, false],
   [(DirectorySector, ⟨[⟨"/e", 3, false⟩, ⟨"/f", 4, false⟩]⟩)],
   [(3, ⟨0, -1, ⟨-1, []⟩⟩),
    (4, ⟨200, -1, ⟨5, [⟨-1, 6 :: List.replicate 30 (-1)⟩]⟩⟩)]⟩

/-- The state `FSRemove stC9 "/f"` produces: sectors 4, 5, 6 cleared,
entry `/f` removed, bitmap written before the directory. -/
def stC9f : FSState :=
  ⟨[true, true, true, true, false, false, false, false],
   [(DirectorySector, ⟨[⟨"/e", 3, false⟩]⟩)],
   [(3, ⟨0, -1, ⟨-1, []⟩⟩),
    (4, ⟨200, -1, ⟨5, [⟨-1, 6 :: List.replicate 30 (-1)⟩]⟩⟩)]⟩

/-! # Claim theorems -/

/-- Claim C1 (status: code_bug).  The claim says a `Create` whose
requested length exceeds `FreeCount() * SectorSize` returns false and
writes nothing back.  Evaluated at the failing input: with one free
sector (128 bytes of free space) a 256-byte `Create` returns TRUE — the
header sector is consumed, and the header, the directory entry, and the
bitmap ARE written back — because `FileHeader::Allocate` discards the
failed chain allocation and returns TRUE unconditionally. -/
theorem claim_C1 :
    SectorSize * Bitmap.numClear stC1.freeMapDisk < 256
    ∧ FSCreate stC1 "/f" 256 = some (true, stC1f)
    ∧ stC1f.freeMapDisk ≠ stC1.freeMapDisk
    ∧ stC1f.dirs ≠ stC1.dirs := by decide

/-- Claim C2 (status: code_bug).  The claim says `FileHeader.Allocate`
stores `numSectors = ceil(numBytes / SectorSize)` and returns the result
of the chain allocation.  Evaluated at the failing input: on a bitmap
with no free sector and `fileSize = 128`, the chain allocation fails
(`FreeCount = 0 < 1 = needed`), yet `Allocate` returns TRUE, and the
header keeps `numSectors = -1` instead of 1. -/
theorem claim_C2 :
    Bitmap.numClear [true, true] < divRoundUp 128 SectorSize
    ∧ FileHeader.Allocate [true, true] 128
        = .done ⟨128, -1, ⟨-1, []⟩⟩ [true, true] true
    ∧ (-1 : Int) ≠ ((divRoundUp 128 SectorSize : Nat) : Int) := by decide

/-- Claim C3 (status: code_bug).  The claim says that whenever
`FreeCount() ≥ ceil(byteLength / SectorSize)` the chain allocation
succeeds and its internal assertions never fire.  Evaluated at the
failing input: with exactly one free sector and `byteLength = 128`
(`needed = 1 = FreeCount`), the guard passes, the single free sector is
consumed for the node's own storage, and the data-slot `FindAndSet`
returns `-1`, firing `ASSERT(sector >= 0)` — the guard omits the
node-storage overhead. -/
theorem claim_C3 :
    Bitmap.numClear [true, false] = divRoundUp 128 SectorSize
    ∧ SeqDataSectors.Allocate [true, false] 128 = .assertFail := by decide

/-- Claim C4 (status: code_bug).  The claim says the
`WriteBack`-then-`FetchFrom` round trip reconstructs every successfully
allocated header, including one requiring zero sectors.  Evaluated at
the failing input: a zero-byte allocation succeeds with an empty chain
(`front = -1`) and writes back fine, but `SeqDataSectors::FetchFrom`
reads the node sector `front` BEFORE its `front == -1` check, so the
fetch performs `ReadSector(-1)` — an out-of-range disk access — instead
of reconstructing the header. -/
theorem claim_C4 :
    SeqDataSectors.Allocate [false, false] 0 = .ok ⟨-1, []⟩ [false, false]
    ∧ (FileHeader.WriteBack hdrC4 5 dC4).isSome
    ∧ ((FileHeader.WriteBack hdrC4 5 dC4).bind (fun d1 => FileHeader.FetchFrom d1 5))
        = none := by decide

/-- Claim C7 (status: confirmed).  `Create("/a/b/c.txt", 100)` on an
empty filesystem creates directory `a` under the root (header sector 2,
sized for one full directory image), then `b` inside `a` (sector 5),
then the leaf inside `b` (stored under the key `/c.txt`, the leading
slash the path split keeps — see C8), each with its sector marked used
and the header, table and bitmap written back and the new sector
initialized empty; resolving the path `/a/b/` afterwards reaches the
same sector 5 and changes nothing. -/
theorem claim_C7 :
    FSCreate stC7 "/a/b/c.txt" 100 = some (true, stC7f)
    ∧ aget stC7f.dirs DirectorySector = some ⟨[⟨"a", 2, true⟩]⟩
    ∧ aget stC7f.dirs 2 = some ⟨[⟨"b", 5, true⟩]⟩
    ∧ aget stC7f.dirs 5 = some ⟨[⟨"/c.txt", 8, false⟩]⟩
    ∧ (aget stC7f.headers 2).map FileHeader.numBytes = some ((DirectoryFileSize : Nat) : Int)
    ∧ (describePath "/a/b/").map (fun p => TraverseDirectory stC7f p.1)
        = some (some (5, stC7f)) := by decide

/-- Claim C9 (status: code_bug).  The claim says `Remove` returns false
and writes nothing for an absent name, and for EVERY present name
fetches the header, clears its chain and header sectors, removes the
entry, and returns true.  Evaluated: the absent case and a
one-data-sector file behave as claimed (sectors 4, 5, 6 cleared), but
removing the present zero-length file `/e` crashes — `FileHeader::FetchFrom`
reads the chain node at `front = -1` before the sentinel check. -/
theorem claim_C9 :
    FSRemove stC9 "/nope" = some (false, stC9)
    ∧ FSRemove stC9 "/f" = some (true, stC9f)
    ∧ FSRemove stC9 "/e" = none := by decide

/-- Claim C5, counterexample.  The claim says every offset at or beyond
the file length produces an internal error.  On a 100-byte file (data
sector 1), `ByteToSector(100)` — an offset equal to the file length —
silently returns sector 1 instead of failing: the walk stays inside the
last node, so no assertion fires. -/
theorem claim_C5_cex :
    FileHeader.Allocate bmC5 100 = .done hdrC5 bmC5f true
    ∧ hdrC5.numBytes = 100
    ∧ hdrC5.ByteToSector 100 = some 1 := by decide

/-- Claim C10 (status: confirmed).  The service keeps a single stored
handle: `OpenAndStore` stores the `Open` result (even a null one) and
returns 1 exactly when it is non-null; `Read`, `Write` and `Close`
ignore their `OpenFileId` argument; `Close` always returns 1 and merely
nulls the handle; `Read`/`Write` with no stored handle dereference a
null pointer (`none`) — there is no error branch. -/
theorem claim_C10 :
    (∀ ss path r ss1, OpenAndStore ss path = some (r, ss1) →
      ((r = 1 ∧ ss1.openedFile.isSome = true) ∨ (r = 0 ∧ ss1.openedFile = none)))
    ∧ (∀ rd ss size id1 id2, svcRead rd ss size id1 = svcRead rd ss size id2)
    ∧ (∀ wr ss size id1 id2, svcWrite wr ss size id1 = svcWrite wr ss size id2)
    ∧ (∀ ss id1, svcClose ss id1 = (1, ⟨ss.fs, none⟩))
    ∧ (∀ rd ss size id1, ss.openedFile = none → svcRead rd ss size id1 = none)
    ∧ (∀ wr ss size id1, ss.openedFile = none → svcWrite wr ss size id1 = none)
    ∧ (∀ rd ss h size id1, ss.openedFile = some h →
        svcRead rd ss size id1 = some (rd h size)) := by
  refine ⟨?_, ?_, ?_, ?_, ?_, ?_, ?_⟩
  · intro ss path r ss1 hop
    unfold OpenAndStore at hop
    cases hfs : FSOpen ss.fs path with
    | none => rw [hfs] at hop; exact absurd hop (by simp)
    | some p =>
      obtain ⟨hh, fs1⟩ := p
      rw [hfs] at hop
      cases hh with
      | none =>
        simp only [Option.isNone_none, if_pos rfl, Option.some.injEq, Prod.mk.injEq] at hop
        exact Or.inr ⟨hop.1.symm, by rw [← hop.2]⟩
      | some hv =>
        simp only [Option.isNone_some, Option.some.injEq, Prod.mk.injEq, if_neg] at hop
        exact Or.inl ⟨hop.1.symm, by rw [← hop.2]; rfl⟩
  · intro rd ss size id1 id2; rfl
  · intro wr ss size id1 id2; rfl
  · intro ss id1; rfl
  · intro rd ss size id1 hnone; unfold svcRead; rw [hnone]
  · intro wr ss size id1 hnone; unfold svcWrite; rw [hnone]
  · intro rd ss h size id1 hsome; unfold svcRead; rw [hsome]

/-- Witness for claim C10: a successful `OpenAndStore` of the file `/f`
of `stC9` returns 1 and stores the handle; a `Read` with no stored
handle is the null dereference; a `Read` with a stored handle applies
the collaborator to the handle, ignoring the id argument. -/
theorem claim_C10_witness :
    (((1 : Int) = 1 ∧ (ServiceState.mk stC9 (some 4)).openedFile.isSome = true)
      ∨ ((1 : Int) = 0 ∧ (ServiceState.mk stC9 (some 4)).openedFile = none))
    ∧ svcRead (fun a b => a + b) ⟨stC9, none⟩ 4 9 = none
    ∧ svcRead (fun a b => a + b) ⟨stC9, some 4⟩ 10 3 = some 14 :=
  ⟨claim_C10.1 ⟨stC9, none⟩ "/f" 1 ⟨stC9, some 4⟩ (by decide),
   claim_C10.2.2.2.2.1 (fun a b => a + b) ⟨stC9, none⟩ 4 9 rfl,
   claim_C10.2.2.2.2.2.2 (fun a b => a + b) ⟨stC9, some 4⟩ 4 10 3 rfl⟩


theorem findAndSetAux_set : ∀ (l : List Bool) i l2,
    Bitmap.findAndSetAux l = some (i, l2) → l2.set i false = l := by
  intro l
  induction l with
  | nil => intro i l2 h; simp [Bitmap.findAndSetAux] at h
  | cons b bs ih =>
    intro i l2 h
    by_cases hb : b = false
    · subst hb
      simp [Bitmap.findAndSetAux] at h
      obtain ⟨rfl, rfl⟩ := h
      rfl
    · rw [show Bitmap.findAndSetAux (b :: bs)
            = (Bitmap.findAndSetAux bs).map (fun p => (p.1 + 1, b :: p.2)) by
          simp [Bitmap.findAndSetAux, hb]] at h
      cases haux : Bitmap.findAndSetAux bs with
      | none => rw [haux] at h; simp at h
      | some p =>
        obtain ⟨j, l1⟩ := p
        rw [haux] at h
        simp only [Option.map_some', Option.some.injEq, Prod.mk.injEq] at h
        rw [← h.1, ← h.2]
        show b :: l1.set j false = b :: bs
        rw [ih j l1 haux]

theorem findAndSet_clear : ∀ (bm : Bitmap) s bm2,
    bm.findAndSet = some (s, bm2) → bm2.clear s = bm ∧ 0 ≤ s := by
  intro bm s bm2 h
  unfold Bitmap.findAndSet at h
  cases haux : Bitmap.findAndSetAux bm with
  | none => rw [haux] at h; simp at h
  | some p =>
    obtain ⟨i, l1⟩ := p
    rw [haux] at h
    simp only [Option.map_some', Option.some.injEq, Prod.mk.injEq] at h
    rw [← h.1, ← h.2]
    refine ⟨?_, by positivity⟩
    unfold Bitmap.clear
    rw [if_pos (by positivity)]
    simpa using findAndSetAux_set bm i l1 haux

theorem clear_comm (bm : Bitmap) (s t : Int) :
    (bm.clear s).clear t = (bm.clear t).clear s := by
  unfold Bitmap.clear
  by_cases hs : 0 ≤ s <;> by_cases ht : 0 ≤ t <;>
    simp only [hs, ht, if_true, if_false]
  by_cases he : s.toNat = t.toNat
  · rw [he]
  · rw [List.set_comm _ _ _ he]

theorem clearList_clear (l : List Int) : ∀ (bm : Bitmap) (t : Int),
    clearList (bm.clear t) l = (clearList bm l).clear t := by
  induction l with
  | nil => intro bm t; rfl
  | cons s rest ih =>
    intro bm t
    show clearList ((bm.clear t).clear s) rest = (clearList (bm.clear s) rest).clear t
    rw [clear_comm, ih]

theorem clearScan_clear (l : List Int) : ∀ (bm : Bitmap) (t : Int),
    clearSlotsScan (bm.clear t) l = (clearSlotsScan bm l).clear t := by
  induction l with
  | nil => intro bm t; rfl
  | cons s rest ih =>
    intro bm t
    show (if s = -1 then bm.clear t else clearSlotsScan ((bm.clear t).clear s) rest)
      = (if s = -1 then bm else clearSlotsScan (bm.clear s) rest).clear t
    by_cases hs : s = -1
    · rw [if_pos hs, if_pos hs]
    · rw [if_neg hs, if_neg hs, clear_comm, ih]

theorem takeFree_spec : ∀ (n : Nat) (bm : Bitmap) slots bm2,
    takeFree bm n = some (slots, bm2) →
    clearList bm2 slots = bm ∧ (∀ x ∈ slots, 0 ≤ x) ∧ slots.length = n := by
  intro n
  induction n with
  | zero =>
    intro bm slots bm2 h
    simp [takeFree] at h
    obtain ⟨rfl, rfl⟩ := h
    exact ⟨rfl, by simp, rfl⟩
  | succ m ih =>
    intro bm slots bm2 h
    unfold takeFree at h
    cases hfs : bm.findAndSet with
    | none => rw [hfs] at h; simp at h
    | some p =>
      obtain ⟨s, bm1⟩ := p
      rw [hfs] at h
      dsimp only at h
      cases htf : takeFree bm1 m with
      | none => rw [htf] at h; simp at h
      | some q =>
        obtain ⟨slots1, bmq⟩ := q
        rw [htf] at h
        simp only [Option.map_some', Option.some.injEq, Prod.mk.injEq] at h
        rw [← h.1, ← h.2]
        obtain ⟨hclr, hpos, hlen⟩ := ih bm1 slots1 bmq htf
        obtain ⟨hundo, hs⟩ := findAndSet_clear bm s bm1 hfs
        refine ⟨?_, ?_, by simp [hlen]⟩
        · show clearList (bmq.clear s) slots1 = bm
          rw [clearList_clear, hclr, hundo]
        · intro x hx
          rcases List.mem_cons.mp hx with rfl | hx2
          · exact hs
          · exact hpos x hx2

theorem clearScan_pad (slots : List Int) : ∀ (bm : Bitmap) (k : Nat),
    (∀ x ∈ slots, 0 ≤ x) →
    clearSlotsScan bm (slots ++ List.replicate k (-1)) = clearList bm slots := by
  induction slots with
  | nil =>
    intro bm k _
    cases k with
    | zero => rfl
    | succ m => show (if (-1 : Int) = -1 then bm else _) = bm; rw [if_pos rfl]
  | cons s rest ih =>
    intro bm k hpos
    have hs : ¬s = -1 := by
      have := hpos s (List.mem_cons_self s rest)
      omega
    show (if s = -1 then bm else clearSlotsScan (bm.clear s) (rest ++ List.replicate k (-1)))
        = clearList (bm.clear s) rest
    rw [if_neg hs]
    exact ih (bm.clear s) k (fun x hx => hpos x (List.mem_cons_of_mem s hx))

theorem dealloc_clear (nodes : List LinkedDataSector) : ∀ (bm : Bitmap) (target t : Int),
    deallocLoop (bm.clear t) target nodes = (deallocLoop bm target nodes).clear t := by
  induction nodes with
  | nil => intro bm target t; rfl
  | cons n rest ih =>
    intro bm target t
    show (if n.linkSector = -1 then (clearSlotsScan (bm.clear t) n.dataSectors).clear target
          else deallocLoop ((clearSlotsScan (bm.clear t) n.dataSectors).clear target)
            n.linkSector rest)
      = (if n.linkSector = -1 then (clearSlotsScan bm n.dataSectors).clear target
          else deallocLoop ((clearSlotsScan bm n.dataSectors).clear target)
            n.linkSector rest).clear t
    rw [clearScan_clear]
    by_cases hl : n.linkSector = -1
    · rw [if_pos hl, if_pos hl, clear_comm]
    · rw [if_neg hl, if_neg hl, clear_comm, ih]

theorem dealloc_clearList (l : List Int) :
    ∀ (bm : Bitmap) (target : Int) (nodes : List LinkedDataSector),
    deallocLoop (clearList bm l) target nodes
      = clearList (deallocLoop bm target nodes) l := by
  induction l with
  | nil => intro bm target nodes; rfl
  | cons s rest ih =>
    intro bm target nodes
    show deallocLoop (clearList (bm.clear s) rest) target nodes
      = clearList ((deallocLoop bm target nodes).clear s) rest
    rw [ih, ← dealloc_clear]

theorem buildNodesF_dealloc : ∀ (fuel : Nat) (bm : Bitmap) (rem : Nat) nodes bm1,
    buildNodesF bm rem fuel = some (nodes, bm1) →
    ∀ t, deallocLoop bm1 t nodes = bm.clear t := by
  intro fuel
  induction fuel with
  | zero => intro bm rem nodes bm1 h; simp [buildNodesF] at h
  | succ f ih =>
    intro bm rem nodes bm1 h t
    unfold buildNodesF at h
    cases htf : takeFree bm (min LinkedDirect rem) with
    | none => rw [htf] at h; simp at h
    | some p =>
      obtain ⟨slots, bmA⟩ := p
      rw [htf] at h
      dsimp only at h
      obtain ⟨hclr, hpos, hlen⟩ := takeFree_spec _ bm slots bmA htf
      by_cases hle : rem ≤ LinkedDirect
      · rw [if_pos hle] at h
        simp only [Option.some.injEq, Prod.mk.injEq] at h
        rw [← h.1, ← h.2]
        show (clearSlotsScan bmA (mkNode (-1) slots).dataSectors).clear t = bm.clear t
        unfold mkNode
        rw [clearScan_pad _ _ _ hpos, hclr]
      · rw [if_neg hle] at h
        cases hfs : bmA.findAndSet with
        | none => rw [hfs] at h; simp at h
        | some q =>
          obtain ⟨s, bmB⟩ := q
          rw [hfs] at h
          dsimp only at h
          cases hbn : buildNodesF bmB (rem - LinkedDirect) f with
          | none => rw [hbn] at h; simp at h
          | some r =>
            obtain ⟨rest, bmC⟩ := r
            rw [hbn] at h
            simp only [Option.some.injEq, Prod.mk.injEq] at h
            rw [← h.1, ← h.2]
            obtain ⟨hundo, hs0⟩ := findAndSet_clear bmA s bmB hfs
            have hsne : ¬(mkNode s slots).linkSector = -1 := by
              show ¬s = -1
              omega
            show deallocLoop bmC t (mkNode s slots :: rest) = bm.clear t
            unfold deallocLoop
            rw [if_neg hsne]
            show deallocLoop ((clearSlotsScan bmC (mkNode s slots).dataSectors).clear t)
                (mkNode s slots).linkSector rest = bm.clear t
            unfold mkNode
            rw [clearScan_pad _ _ _ hpos]
            rw [dealloc_clear, dealloc_clearList]
            rw [ih bmB (rem - LinkedDirect) rest bmC hbn s]
            rw [hundo, hclr]

/-- Claim C6 (status: confirmed).  For every bitmap and byteLength on
which the chain allocation completes successfully, a subsequent
`Deallocate` restores the bitmap exactly (hence `FreeCount` regains its
initial value — every data-slot sector and node-storage sector is
cleared again), and `Deallocate` is a no-op when the head is the
sentinel. -/
theorem claim_C6 :
    (∀ bm n c bm1, SeqDataSectors.Allocate bm n = .ok c bm1 →
      c.Deallocate bm1 = bm ∧ (c.Deallocate bm1).numClear = bm.numClear)
    ∧ (∀ (c : SeqDataSectors) (bm : Bitmap), c.front = -1 → c.Deallocate bm = bm) := by
  constructor
  · intro bm n c bm1 h
    suffices hd : c.Deallocate bm1 = bm by rw [hd]; exact ⟨rfl, rfl⟩
    unfold SeqDataSectors.Allocate at h
    by_cases hlt : bm.numClear < divRoundUp n SectorSize
    · rw [if_pos hlt] at h; simp at h
    · rw [if_neg hlt] at h
      by_cases hz : divRoundUp n SectorSize = 0
      · rw [if_pos hz] at h
        simp only [AllocResult.ok.injEq] at h
        rw [← h.1, ← h.2]
        rfl
      · rw [if_neg hz] at h
        cases hfs : bm.findAndSet with
        | none => rw [hfs] at h; simp at h
        | some p =>
          obtain ⟨front, bmF⟩ := p
          rw [hfs] at h
          dsimp only at h
          cases hbn : buildNodes bmF (divRoundUp n SectorSize) with
          | none => rw [hbn] at h; simp at h
          | some q =>
            obtain ⟨nodes, bm2⟩ := q
            rw [hbn] at h
            simp only [AllocResult.ok.injEq] at h
            rw [← h.1, ← h.2]
            obtain ⟨hundo, hf0⟩ := findAndSet_clear bm front bmF hfs
            have hne : ¬(SeqDataSectors.mk front nodes).front = -1 := by
              show ¬front = -1; omega
            unfold SeqDataSectors.Deallocate
            rw [if_neg hne]
            show deallocLoop bm2 front nodes = bm
            rw [buildNodesF_dealloc _ bmF _ nodes bm2 hbn front, hundo]
  · intro c bm h
    unfold SeqDataSectors.Deallocate
    rw [if_pos h]

/-- Witness for claim C6: a one-sector allocation on a two-sector free
bitmap (node at 0, data at 1), deallocated back to the all-free bitmap;
and the sentinel no-op. -/
theorem claim_C6_witness :
    (SeqDataSectors.Deallocate ⟨0, [⟨-1, 1 :: List.replicate 30 (-1)⟩]⟩ [true, true]
        = [false, false]
     ∧ (SeqDataSectors.Deallocate ⟨0, [⟨-1, 1 :: List.replicate 30 (-1)⟩]⟩
          [true, true]).numClear = Bitmap.numClear [false, false])
    ∧ SeqDataSectors.Deallocate ⟨-1, []⟩ [true] = [true] :=
  ⟨claim_C6.1 [false, false] 128 ⟨0, [⟨-1, 1 :: List.replicate 30 (-1)⟩]⟩ [true, true]
      (by decide),
   claim_C6.2 ⟨-1, []⟩ [true] rfl⟩

theorem takeWhile_pad (slots : List Int) : ∀ (k : Nat), (∀ x ∈ slots, 0 ≤ x) →
    (slots ++ List.replicate k (-1)).takeWhile (fun s => s ≠ -1) = slots := by
  induction slots with
  | nil =>
    intro k _
    cases k with
    | zero => rfl
    | succ m => simp [List.replicate_succ, List.takeWhile_cons]
  | cons s rest ih =>
    intro k hpos
    have hs : s ≠ -1 := by
      have := hpos s (List.mem_cons_self s rest)
      omega
    simp only [List.cons_append, List.takeWhile_cons]
    rw [if_pos (by simp [hs])]
    rw [ih k (fun x hx => hpos x (List.mem_cons_of_mem s hx))]

theorem usedSlots_mkNode (l : Int) (slots : List Int) (hpos : ∀ x ∈ slots, 0 ≤ x) :
    usedSlots (mkNode l slots) = slots := by
  unfold usedSlots mkNode
  exact takeWhile_pad slots _ hpos

theorem mkNode_length (l : Int) (slots : List Int) (h : slots.length ≤ LinkedDirect) :
    (mkNode l slots).dataSectors.length = LinkedDirect := by
  unfold mkNode
  simp only [List.length_append, List.length_replicate]
  omega

theorem buildNodesF_walk : ∀ (fuel : Nat) (bm : Bitmap) (rem : Nat) nodes bm1,
    buildNodesF bm rem fuel = some (nodes, bm1) →
    (nodes.flatMap usedSlots).length = rem
    ∧ (∀ i, i < rem → walkGet nodes i = (nodes.flatMap usedSlots).get? i
        ∧ ((nodes.flatMap usedSlots).get? i).isSome = true)
    ∧ (∀ i, (walkGet nodes i = none ↔ nodes.length ≤ i / LinkedDirect)) := by
  intro fuel
  induction fuel with
  | zero => intro bm rem nodes bm1 h; simp [buildNodesF] at h
  | succ f ih =>
    intro bm rem nodes bm1 h
    unfold buildNodesF at h
    cases htf : takeFree bm (min LinkedDirect rem) with
    | none => rw [htf] at h; simp at h
    | some p =>
      obtain ⟨slots, bmA⟩ := p
      rw [htf] at h
      dsimp only at h
      obtain ⟨hclr, hpos, hlen⟩ := takeFree_spec _ bm slots bmA htf
      have hLD : (0 : Nat) < LinkedDirect := by decide
      have hLD31 : LinkedDirect = 31 := rfl
      by_cases hle : rem ≤ LinkedDirect
      · rw [if_pos hle] at h
        simp only [Option.some.injEq, Prod.mk.injEq] at h
        rw [← h.1]
        have hslen : slots.length = rem := by rw [hlen]; omega
        have hflat : ([mkNode (-1) slots].flatMap usedSlots) = slots := by
          simp only [List.flatMap_cons, List.flatMap_nil, List.append_nil]
          exact usedSlots_mkNode _ _ hpos
        have hdslen : (mkNode (-1) slots).dataSectors.length = LinkedDirect :=
          mkNode_length _ _ (by omega)
        refine ⟨by rw [hflat, hslen], ?_, ?_⟩
        · intro i hi
          have hiLD : i < LinkedDirect := by omega
          have hdiv : i / LinkedDirect = 0 := Nat.div_eq_of_lt hiLD
          have hmod : i % LinkedDirect = i := Nat.mod_eq_of_lt hiLD
          unfold walkGet
          rw [hdiv, List.drop_zero, hflat]
          show (mkNode (-1) slots).dataSectors.get? (i % LinkedDirect) = slots.get? i
            ∧ (slots.get? i).isSome = true
          rw [hmod]
          unfold mkNode
          rw [List.get?_append (by omega)]
          exact ⟨rfl, by rw [List.get?_eq_get (by omega)]; rfl⟩
        · intro i
          by_cases hi : i / LinkedDirect = 0
          · unfold walkGet
            rw [hi, List.drop_zero]
            show ((mkNode (-1) slots).dataSectors.get? (i % LinkedDirect) = none ↔ _)
            constructor
            · intro hnone
              rw [List.get?_eq_none, hdslen] at hnone
              have hm := Nat.mod_lt i hLD
              rw [hLD31] at hnone hm
              exact absurd hnone (by omega)
            · intro hcon
              simp only [List.length_cons, List.length_nil] at hcon
              exact absurd hcon (by omega)
          · unfold walkGet
            rw [hLD31] at hi ⊢
            have h1 : (1 : Nat) ≤ i / 31 := by omega
            rw [List.drop_eq_nil_of_le (by simpa using h1)]
            simp only [List.length_cons, List.length_nil]
            exact ⟨fun _ => by omega, fun _ => by trivial⟩
      · rw [if_neg hle] at h
        cases hfs : bmA.findAndSet with
        | none => rw [hfs] at h; simp at h
        | some q =>
          obtain ⟨s, bmB⟩ := q
          rw [hfs] at h
          dsimp only at h
          cases hbn : buildNodesF bmB (rem - LinkedDirect) f with
          | none => rw [hbn] at h; simp at h
          | some r =>
            obtain ⟨rest, bmC⟩ := r
            rw [hbn] at h
            simp only [Option.some.injEq, Prod.mk.injEq] at h
            rw [← h.1]
            obtain ⟨ihlen, ihmap, ihnone⟩ := ih bmB (rem - LinkedDirect) rest bmC hbn
            have hslen : slots.length = LinkedDirect := by rw [hlen]; omega
            have hflat : ((mkNode s slots :: rest).flatMap usedSlots)
                = slots ++ rest.flatMap usedSlots := by
              rw [List.flatMap_cons, usedSlots_mkNode _ _ hpos]
            refine ⟨?_, ?_, ?_⟩
            · rw [hflat]
              simp only [List.length_append, hslen, ihlen]
              omega
            · intro i hi
              rw [hflat]
              by_cases hiLD : i < LinkedDirect
              · have hdiv : i / LinkedDirect = 0 := Nat.div_eq_of_lt hiLD
                have hmod : i % LinkedDirect = i := Nat.mod_eq_of_lt hiLD
                unfold walkGet
                rw [hdiv, List.drop_zero]
                show (mkNode s slots).dataSectors.get? (i % LinkedDirect)
                    = (slots ++ rest.flatMap usedSlots).get? i ∧ _
                rw [hmod]
                unfold mkNode
                rw [List.get?_append (by omega), List.get?_append (by omega)]
                exact ⟨rfl, by rw [List.get?_eq_get (by omega)]; rfl⟩
              · have hge : LinkedDirect ≤ i := by omega
                have hi2 : i = (i - LinkedDirect) + LinkedDirect := by omega
                have hdiv : i / LinkedDirect = (i - LinkedDirect) / LinkedDirect + 1 := by
                  conv_lhs => rw [hi2]
                  rw [Nat.add_div_right _ hLD]
                have hmod : i % LinkedDirect = (i - LinkedDirect) % LinkedDirect := by
                  conv_lhs => rw [hi2]
                  rw [Nat.add_mod_right]
                unfold walkGet
                rw [hdiv, List.drop_succ_cons, hmod]
                rw [List.get?_append_right (by omega), hslen]
                exact ihmap (i - LinkedDirect) (by omega)
            · intro i
              simp only [List.length_cons]
              by_cases hiLD : i < LinkedDirect
              · have hdiv : i / LinkedDirect = 0 := Nat.div_eq_of_lt hiLD
                have hdslen : (mkNode s slots).dataSectors.length = LinkedDirect :=
                  mkNode_length _ _ (by omega)
                unfold walkGet
                rw [hdiv, List.drop_zero]
                show ((mkNode s slots).dataSectors.get? (i % LinkedDirect) = none ↔ _)
                constructor
                · intro hnone
                  rw [List.get?_eq_none, hdslen] at hnone
                  have hm := Nat.mod_lt i hLD
                  rw [hLD31] at hnone hm
                  exact absurd hnone (by omega)
                · intro hcon
                  exact absurd hcon (by omega)
              · have hge : LinkedDirect ≤ i := by omega
                have hi2 : i = (i - LinkedDirect) + LinkedDirect := by omega
                have hdiv : i / LinkedDirect = (i - LinkedDirect) / LinkedDirect + 1 := by
                  conv_lhs => rw [hi2]
                  rw [Nat.add_div_right _ hLD]
                have hmod : i % LinkedDirect = (i - LinkedDirect) % LinkedDirect := by
                  conv_lhs => rw [hi2]
                  rw [Nat.add_mod_right]
                unfold walkGet
                rw [hdiv, List.drop_succ_cons, hmod]
                have hiff := ihnone (i - LinkedDirect)
                unfold walkGet at hiff
                rw [hiff, hLD31]
                omega

/-- Claim C5, amended (status: corrected).  For every successfully
chain-allocated header and every offset below the byte length,
`ByteToSector` returns the `(offset / SectorSize)`-th element of the
chain's flattened data-sector sequence (and that element exists).  The
claim's second half is amended: an out-of-range offset produces an
internal error (`none`) exactly when its node index
`offset / SectorSize / LinkedDirect` runs past the chain's node list;
out-of-range offsets that stay inside the existing nodes silently
return the addressed slot's content (see the counterexample). -/
theorem claim_C5 : ∀ bm n c bm1, SeqDataSectors.Allocate bm n = .ok c bm1 →
    (∀ off, off < n →
      FileHeader.ByteToSector ⟨(n : Int), -1, c⟩ off = (chainData c).get? (off / SectorSize)
      ∧ ((chainData c).get? (off / SectorSize)).isSome = true)
    ∧ (∀ off, FileHeader.ByteToSector ⟨(n : Int), -1, c⟩ off = none
        ↔ c.list.length ≤ off / SectorSize / LinkedDirect) := by
  intro bm n c bm1 h
  unfold SeqDataSectors.Allocate at h
  by_cases hlt : bm.numClear < divRoundUp n SectorSize
  · rw [if_pos hlt] at h; simp at h
  · rw [if_neg hlt] at h
    by_cases hz : divRoundUp n SectorSize = 0
    · rw [if_pos hz] at h
      simp only [AllocResult.ok.injEq] at h
      rw [← h.1]
      have hn0 : n = 0 := by
        unfold divRoundUp SectorSize at hz
        omega
      constructor
      · intro off hoff
        rw [hn0] at hoff
        exact absurd hoff (by omega)
      · intro off
        show walkGet [] (off / SectorSize) = none
          ↔ ([] : List LinkedDataSector).length ≤ off / SectorSize / LinkedDirect
        unfold walkGet
        rw [List.drop_nil]
        simp
    · rw [if_neg hz] at h
      cases hfs : bm.findAndSet with
      | none => rw [hfs] at h; simp at h
      | some p =>
        obtain ⟨front, bmF⟩ := p
        rw [hfs] at h
        dsimp only at h
        cases hbn : buildNodes bmF (divRoundUp n SectorSize) with
        | none => rw [hbn] at h; simp at h
        | some q =>
          obtain ⟨nodes, bm2⟩ := q
          rw [hbn] at h
          simp only [AllocResult.ok.injEq] at h
          rw [← h.1]
          obtain ⟨hflen, hmap, hwnone⟩ :=
            buildNodesF_walk _ bmF (divRoundUp n SectorSize) nodes bm2 hbn
          constructor
          · intro off hoff
            have hidx : off / SectorSize < divRoundUp n SectorSize := by
              show off / SectorSize < (n + SectorSize - 1) / SectorSize
              have hS : SectorSize = 128 := rfl
              rw [hS]
              omega
            exact hmap (off / SectorSize) hidx
          · intro off
            exact hwnone (off / SectorSize)

/-- Witness for claim C5: on the 100-byte single-sector file, offset 64
maps to flattened element 0 (sector 1), and offset 5000 (node index 1,
past the single node) is characterized by the error condition. -/
theorem claim_C5_witness :
    (FileHeader.ByteToSector ⟨100, -1, hdrC5.dataSectorList⟩ 64
        = (chainData hdrC5.dataSectorList).get? (64 / SectorSize)
      ∧ ((chainData hdrC5.dataSectorList).get? (64 / SectorSize)).isSome = true)
    ∧ (FileHeader.ByteToSector ⟨100, -1, hdrC5.dataSectorList⟩ 5000 = none
        ↔ hdrC5.dataSectorList.list.length ≤ 5000 / SectorSize / LinkedDirect) :=
  ⟨(claim_C5 bmC5 100 hdrC5.dataSectorList bmC5f (by decide)).1 64 (by omega),
   (claim_C5 bmC5 100 hdrC5.dataSectorList bmC5f (by decide)).2 5000⟩

theorem findLastSlash_none : ∀ (p : List Char), '/' ∉ p → findLastSlash p = none := by
  intro p
  induction p with
  | nil => intro _; rfl
  | cons c cs ih =>
    intro hmem
    have hcs : '/' ∉ cs := fun hx => hmem (List.mem_cons_of_mem c hx)
    have hc : ¬c = '/' := fun he => hmem (he ▸ List.mem_cons_self c cs)
    unfold findLastSlash
    rw [ih hcs]
    simp [hc]

theorem findLastSlash_last : ∀ (u v : List Char), '/' ∉ v →
    findLastSlash (u ++ '/' :: v) = some u.length := by
  intro u
  induction u with
  | nil =>
    intro v hv
    show findLastSlash ('/' :: v) = some 0
    unfold findLastSlash
    rw [findLastSlash_none v hv]
    simp
  | cons c cu ih =>
    intro v hv
    show findLastSlash (c :: (cu ++ '/' :: v)) = some (cu.length + 1)
    unfold findLastSlash
    rw [ih v hv]

/-- Claim C8, amended (status: corrected).  A path without a `/` fails
the split (fatal assertion, modelled as `none`).  For a path with a last
separator, the directory portion is everything BEFORE the last `/` (the
bare root becomes `/`) — not including it, as the claim said — and the
leaf name is a `/` followed by the remainder — not the bare remainder
(see the counterexample). -/
theorem claim_C8 :
    (∀ p : List Char, '/' ∉ p → describePathChars p = none)
    ∧ (∀ u v : List Char, '/' ∉ v →
        describePathChars (u ++ '/' :: v)
          = some ((if u = [] then ['/'] else u), '/' :: v)) := by
  constructor
  · intro p hp
    unfold describePathChars
    rw [findLastSlash_none p hp]
  · intro u v hv
    unfold describePathChars
    rw [findLastSlash_last u v hv]
    dsimp only
    by_cases hu : u = []
    · subst hu
      simp
    · have hul : ¬(u.length = 0) := by simpa [List.length_eq_zero] using hu
      rw [if_neg hul, if_neg hu]
      rw [List.take_left]
      have hdrop : (u ++ '/' :: v).drop (u.length + 1) = v := by
        rw [← List.drop_drop, List.drop_left]
        rfl
      rw [hdrop]

/-- Claim C8, counterexample.  `DescribePath` splits `/a/b` into
directory portion `/a` (the claim says `/a/`, including the separator)
and leaf name `/b` (the claim says the bare remainder `b`). -/
theorem claim_C8_cex :
    describePath "/a/b" = some ("/a", "/b")
    ∧ some (("/a" : String), ("/b" : String)) ≠ some (("/a/" : String), ("b" : String)) := by
  decide

/-- Witness for claim C8: a separator-free path fails, and `/a/b` splits
into `/a` and `/b` via the general theorem. -/
theorem claim_C8_witness :
    describePathChars ['a', 'b'] = none
    ∧ describePathChars (['/', 'a'] ++ '/' :: ['b'])
        = some ((if (['/', 'a'] : List Char) = [] then ['/'] else ['/', 'a']),
            '/' :: ['b']) :=
  ⟨claim_C8.1 ['a', 'b'] (by decide), claim_C8.2 ['/', 'a'] ['b'] (by decide)⟩

end NachOS
